import Mathlib

/-!
Verification of the mini-file-server core (file-server.py / file_utils.py).

Paths are modelled at two granularities:
* for the path sandbox (`safe_path`) a path is a list of segments
  (`List String`), mirroring `pathlib.PurePath.parts`;
* for filename manipulation (`with_suffix`, `secure_filename`, the upload
  protocol) a path or name is a list of characters (`List Char`),
  mirroring the character-level operations of `pathlib` and `werkzeug`.

The filesystem is a partial map from paths to nodes (regular file with
byte content, or directory); fallible primitives (`rename`, `unlink`,
opening for write) return `Option`, `none` standing for the `OSError`
the corresponding Python call raises.
-/

/-! ## PathSandbox: `safe_path` (file-server.py, lines 70-75)

`pathlib` drops `.` segments and empty segments when a `Path` is
constructed, but keeps `..` segments; `Path.resolve()` eliminates `..`
lexically (and resolves symlinks, which this model does not have);
`Path.relative_to(root)` succeeds iff `root`'s parts are a prefix of the
path's parts, compared literally.  The model takes raw segment lists for
an absolute root and a relative user path. -/

/-- The `pathlib` construction-time normalisation of a segment list:
`.` segments and empty segments are dropped, `..` is kept. -/
def pathParts (l : List String) : List String :=
  l.filter (fun s => !(s == ".") && !(s == ""))

/-- Lexical `..`-elimination, as `Path.resolve()` performs on a tree with
no symbolic links: `..` pops the last segment (at the root, `/..` is `/`,
so popping an empty stack is a no-op). -/
def resolveParts (l : List String) : List String :=
  l.foldl (fun acc seg => if seg = ".." then acc.dropLast else acc ++ [seg]) []

/-- Model of `safe_path(root, path)` from file-server.py:
`(root/path).resolve().relative_to(root)` inside `try`, returning `True`
on success and `False` on any exception. -/
def safe_path (root path : List String) : Bool :=
  let joined := pathParts root ++ pathParts path
  let resolved := resolveParts joined
  (pathParts root).isPrefixOf resolved

theorem resolveParts_aux_no_dotdot (l acc : List String)
    (h : ∀ s ∈ l, s ≠ "..") :
    l.foldl (fun acc seg => if seg = ".." then acc.dropLast else acc ++ [seg]) acc
      = acc ++ l := by
  induction l generalizing acc with
  | nil => simp
  | cons s rest ih =>
    have hs : ¬(s = "..") := h s (by simp)
    have hrest : ∀ x ∈ rest, x ≠ ".." := fun x hx => h x (by simp [hx])
    rw [List.foldl_cons, if_neg hs, ih _ hrest, List.append_cons]
    simp

/-- A segment list with no `..` is already resolved. -/
theorem resolveParts_no_dotdot (l : List String) (h : ∀ s ∈ l, s ≠ "..") :
    resolveParts l = l := by
  simpa using resolveParts_aux_no_dotdot l [] h

/-- C1, counterexample.  For the root `/data/x/..` and the user path `y`,
the canonical form of root/path is `/data/y`, which lies inside the
canonical root `/data`, yet `safe_path` rejects: `relative_to` compares
against the *uncanonicalised* root `/data/x/..`.  So "rejects iff the
canonical result lies outside canonical R" fails at this input. -/
theorem C1_safe_path_counterexample :
    safe_path ["data", "x", ".."] ["y"] = false ∧
    resolveParts (pathParts ["data", "x", ".."]) = ["data"] ∧
    resolveParts (pathParts ["data", "x", ".."] ++ pathParts ["y"])
      = ["data", "y"] ∧
    (["data"] : List String).isPrefixOf ["data", "y"] = true := by
  decide

/-- C1, amended.  Provided the root is already canonical (no `..`
segments after `pathlib` parsing; symlink-free model), `safe_path`
accepts exactly when the canonical form of root/path equals or descends
from the canonical root, and any resolution failure yields `false`. -/
theorem C1_safe_path_canonical_root (root path : List String)
    (h : ∀ s ∈ pathParts root, s ≠ "..") :
    safe_path root path = true ↔
      (resolveParts (pathParts root)).isPrefixOf
        (resolveParts (pathParts root ++ pathParts path)) = true := by
  unfold safe_path
  rw [resolveParts_no_dotdot _ h]

theorem C1_safe_path_witness :
    (∀ s ∈ pathParts ["data"], s ≠ "..") ∧
    (safe_path ["data"] ["..", "etc", "passwd"] = true ↔
      (resolveParts (pathParts ["data"])).isPrefixOf
        (resolveParts (pathParts ["data"] ++ pathParts ["..", "etc", "passwd"]))
        = true) :=
  ⟨by decide, C1_safe_path_canonical_root ["data"] ["..", "etc", "passwd"]
    (by decide)⟩

/-! ## Filename manipulation: `pathlib.PurePath.with_suffix`

`Path.with_suffix(s)` *replaces* the final extension of the last path
component: the suffix of a name is the part from the last `.` on,
provided that dot is neither the first nor the last character of the
name (`.bashrc` and `name.` have no suffix). -/

/-- Last component of a character-level path (the part after the last
`/`; the whole path when it contains no `/`). -/
def pathName (p : List Char) : List Char :=
  ((p.reverse).takeWhile (fun c => !(c == '/'))).reverse

/-- Everything up to and including the last `/` of a character-level
path (empty when the path contains no `/`). -/
def pathDir (p : List Char) : List Char :=
  ((p.reverse).dropWhile (fun c => !(c == '/'))).reverse

/-- Length of `PurePath.suffix` of a single name: the last `.` together
with what follows it, provided the dot is at index `i` with
`0 < i < len - 1`; otherwise the suffix is empty. -/
def suffixLen (name : List Char) : Nat :=
  let a := ((name.reverse).takeWhile (fun c => !(c == '.'))).length
  if 0 < a && a + 1 < name.length then a + 1 else 0

/-- The name with its suffix removed (`PurePath.stem` of a single
component). -/
def stemChars (name : List Char) : List Char :=
  name.take (name.length - suffixLen name)

/-- The `PurePath.suffix` of a single name, as characters. -/
def path_suffix (name : List Char) : List Char :=
  name.drop (name.length - suffixLen name)

/-- Effect of `with_suffix` on a single name: strip the old suffix, append the new
one. -/
def withSuffixName (name suf : List Char) : List Char :=
  stemChars name ++ suf

/-- Model of `PurePath.with_suffix`: the replacement acts on the last component
of the path only. -/
def with_suffix (p suf : List Char) : List Char :=
  pathDir p ++ withSuffixName (pathName p) suf

/-- C2, counterexample.  `with_suffix` *replaces* the final extension
instead of appending the shadow suffix to the full published name:
the distinct targets `a.txt` and `a.bin` share the shadow/lock name
`a.lock`, and `a.txt`'s temp file is `a.part`, not `a.txt.part`. -/
theorem C2_shadow_suffix_counterexample :
    with_suffix ("a.txt".toList) (".lock".toList)
      = with_suffix ("a.bin".toList) (".lock".toList) ∧
    "a.txt".toList ≠ "a.bin".toList ∧
    with_suffix ("a.txt".toList) (".part".toList)
      ≠ "a.txt".toList ++ ".part".toList := by
  decide

/-- C2, amended.  The in-flight shadow files of a target name `n` are
`with_suffix(n, ".part"/".lock"/".old")`, i.e. the *stem* of `n` with
the shadow suffix: the final extension is replaced, so two targets share
a shadow file exactly when their stems coincide (the suffix is appended
to the full name only when the name has no extension). -/
theorem C2_with_suffix_replaces_extension (n1 n2 suf : List Char) :
    withSuffixName n1 suf = stemChars n1 ++ suf ∧
    (withSuffixName n1 suf = withSuffixName n2 suf ↔
      stemChars n1 = stemChars n2) := by
  refine ⟨rfl, ?_, fun h => by rw [withSuffixName, withSuffixName, h]⟩
  intro h
  exact List.append_cancel_right h

/-! ## `werkzeug.utils.secure_filename`

For ASCII inputs `secure_filename` is: replace `os.sep` (`/`) by a
space, split on whitespace runs and re-join with `_`, delete every
character outside `[A-Za-z0-9_.-]`, then strip leading and trailing `.`
and `_` characters.  (The initial NFKD-normalise/ASCII-encode step is
modelled as dropping non-ASCII characters; the transliteration NFKD
performs on some non-ASCII letters is outside this model, which is used
on ASCII inputs only.) -/

/-- The whitespace characters `str.split()` splits on (ASCII). -/
def isPyWhitespace (c : Char) : Bool :=
  c == ' ' || c == '\t' || c == '\n' || c == '\r' ||
    c.toNat == 11 || c.toNat == 12

/-- Tokenizer for `str.split()` with no separator: `acc` holds the
current word reversed; words are emitted at whitespace boundaries and
empty words are discarded. -/
def splitWsAux : List Char → List Char → List (List Char)
  | [], acc => if acc = [] then [] else [acc.reverse]
  | c :: rest, acc =>
    if isPyWhitespace c then
      if acc = [] then splitWsAux rest []
      else acc.reverse :: splitWsAux rest []
    else splitWsAux rest (c :: acc)

/-- Model of `str.split()` with no separator: split on runs of whitespace,
discarding empty words. -/
def splitWs (l : List Char) : List (List Char) :=
  splitWsAux l []

/-- Characters kept by werkzeug's `_filename_ascii_strip_re`. -/
def isKeepChar (c : Char) : Bool :=
  c.isAlphanum || c == '_' || c == '.' || c == '-'

/-- Characters removed from both ends by the final `.strip("._")`. -/
def isStripChar (c : Char) : Bool :=
  c == '.' || c == '_'

/-- Model of `werkzeug.utils.secure_filename`, character-level. -/
def secure_filename (l : List Char) : List Char :=
  let ascii := l.filter (fun c => c.toNat < 128)
  let replaced := ascii.map (fun c => if c == '/' then ' ' else c)
  let joined := List.intercalate ['_'] (splitWs replaced)
  let kept := joined.filter isKeepChar
  (kept.dropWhile isStripChar).rdropWhile isStripChar

example : secure_filename ("../../etc/passwd".toList) = "etc_passwd".toList := by
  decide

example : secure_filename ("My cool movie.mov".toList)
    = "My_cool_movie.mov".toList := by decide

example : secure_filename ("..".toList) = [] := by decide

example : secure_filename ("result.txt".toList) = "result.txt".toList := by
  decide

/-! ## Filesystem model and AtomicTransfer (file_utils.py, lines 199-254)

A filesystem is a partial map from character-level paths to nodes.
`none` results of the primitives stand for the `OSError` the
corresponding Python call raises. -/

inductive FsNode where
  | file (content : List Nat) : FsNode
  | dir : FsNode
deriving DecidableEq

abbrev FS := List Char → Option FsNode

/-- Create or truncate a regular file (`open(p, 'wb')` writes, and also
the `O_CREAT|O_TRUNC` open `filelock` performs on the lock path). -/
def fsWrite (fs : FS) (p : List Char) (c : List Nat) : FS :=
  fun q => if q = p then some (.file c) else fs q

/-- Model of `Path.exists()`. -/
def fsExists (fs : FS) (p : List Char) : Bool :=
  (fs p).isSome

/-- Model of `Path.rename(src, dst)`: fails (raises) when `src` does not exist;
an existing `dst` is replaced. -/
def fsRename (fs : FS) (src dst : List Char) : Option FS :=
  match fs src with
  | none => none
  | some node =>
    some (fun q => if q = dst then some node else if q = src then none else fs q)

/-- Model of `Path.unlink()`: fails (raises) when the path is missing or is a
directory. -/
def fsUnlink (fs : FS) (p : List Char) : Option FS :=
  match fs p with
  | some (.file _) => some (fun q => if q = p then none else fs q)
  | _ => none

/-- Model of `open(p, 'wb')` and of the `O_RDWR|O_CREAT|O_TRUNC` open: fails
(raises) when a directory sits at `p`, otherwise creates or truncates
the file. -/
def fsOpenWrite (fs : FS) (p : List Char) : Option FS :=
  match fs p with
  | some .dir => none
  | _ => some (fsWrite fs p [])

/-- Model of `Path(target_folder, name)`: `Path(folder, '')` is the folder
itself. -/
def pathJoin (folder name : List Char) : List Char :=
  if name = [] then folder else folder ++ '/' :: name

/-- The `while True: chunk = stream.read(...); if len(chunk) == 0:
break; f.write(chunk)` loop.  The stream is a list of read results,
`none` standing for a read (or the subsequent write) raising; an
exhausted list behaves like a stream at EOF.  Returns the bytes written
so far and whether the loop finished without raising. -/
def streamLoop : List (Option (List Nat)) → List Nat → List Nat × Bool
  | [], acc => (acc, true)
  | none :: _, acc => (acc, false)
  | some chunk :: rest, acc =>
    if chunk = [] then (acc, true) else streamLoop rest (acc ++ chunk)

/-- Successive `read(csize)` results of a stream holding `s`: each read
returns at most `csize` bytes, the leading ones not yet consumed.  The
fuel argument (instantiated with `s.length`) only forces structural
termination. -/
def readChunksAux (csize : Nat) : Nat → List Nat → List (List Nat)
  | _, [] => []
  | 0, _ => []
  | fuel + 1, s => s.take csize :: readChunksAux csize fuel (s.drop csize)

/-- The chunk sequence `stream.read(csize)` produces for content `s`. -/
def readChunks (csize : Nat) (s : List Nat) : List (List Nat) :=
  readChunksAux csize s.length s

/-- Outcome of `post_request_file_wait`: returned `True`, returned
`False` (no usable upload), or an exception propagated out of the
function.  Each constructor carries the filesystem state left behind. -/
inductive UploadResult where
  | ok (fs : FS) : UploadResult
  | noFile (fs : FS) : UploadResult
  | raised (fs : FS) : UploadResult

def UploadResult.isOk : UploadResult → Bool
  | .ok _ => true
  | _ => false

def UploadResult.isNoFile : UploadResult → Bool
  | .noFile _ => true
  | _ => false

def UploadResult.isRaised : UploadResult → Bool
  | .raised _ => true
  | _ => false

def UploadResult.state : UploadResult → FS
  | .ok f => f
  | .noFile f => f
  | .raised f => f

/-- A fallible protocol step: `none` means the underlying call raised,
aborting `post_request_file_wait` with the exception propagating and
`whenFail` as the filesystem state left behind; otherwise the protocol
continues on the new state. -/
def orRaise (step : Option FS) (onOk : FS -> UploadResult)
    (whenFail : FS) : UploadResult :=
  match step with
  | none => .raised whenFail
  | some fs' => onOk fs'

theorem orRaise_some (fs' : FS) (onOk : FS -> UploadResult) (w : FS) :
    orRaise (some fs') onOk w = onOk fs' := rfl

theorem orRaise_none (onOk : FS -> UploadResult) (w : FS) :
    orRaise none onOk w = .raised w := rfl

/-- Model of `post_request_file_wait(uploaded_file, target_folder)`
(file_utils.py, lines 199-228), step by step:
reject an empty filename; sanitize it; stream the body into
`target.with_suffix('.part')`; under `filelock.FileLock
(target.with_suffix('.lock'))` (acquisition creates/truncates the lock
file) rename an existing target to `.old`, rename `.part` to the
target, delete `.old` if both target and `.old` exist, delete the lock
file if it exists; return `True`. -/
def post_request_file_wait (filename : List Char)
    (chunks : List (Option (List Nat))) (target_folder : List Char)
    (fs : FS) : UploadResult :=
  if filename = [] then .noFile fs
  else
    let file_name := secure_filename filename
    let target_file := pathJoin target_folder file_name
    let temp_file := with_suffix target_file (".part".toList)
    orRaise (fsOpenWrite fs temp_file) (fun fsOpened =>
      let written := (streamLoop chunks []).1
      let okRead := (streamLoop chunks []).2
      let fs1 := fsWrite fsOpened temp_file written
      if okRead then
        let lock_file := with_suffix target_file (".lock".toList)
        orRaise (fsOpenWrite fs1 lock_file) (fun fs2 =>
          let old_file := with_suffix target_file (".old".toList)
          orRaise (if fsExists fs2 target_file
                   then fsRename fs2 target_file old_file
                   else some fs2) (fun fs3 =>
            orRaise (fsRename fs3 temp_file target_file) (fun fs4 =>
              orRaise (if fsExists fs4 target_file && fsExists fs4 old_file
                       then fsUnlink fs4 old_file
                       else some fs4) (fun fs5 =>
                orRaise (if fsExists fs5 lock_file
                         then fsUnlink fs5 lock_file
                         else some fs5) (fun fs6 =>
                  .ok fs6) fs5) fs4) fs3) fs2) fs1
      else .raised fs1) fs

/-- Outcome of the download readiness gate. -/
inductive GateOutcome where
  | Ready : GateOutcome
  | TimedOut : GateOutcome
  | NotFound : GateOutcome
deriving DecidableEq

/-- Model of `get_request_file_wait(target_file)` (file_utils.py, lines 249-254):
`filelock.FileLock(target_file.with_suffix('.lock'), timeout=10)`
acquired and released by the `with` block; `True` on acquisition within
the bounded wait, `False` on `filelock.Timeout`.  `lockFreeAt` gives,
for each lock path, the time units until that lock can be acquired. -/
def get_request_file_wait (lockFreeAt : List Char → Nat)
    (target_file : List Char) : Bool :=
  decide (lockFreeAt (with_suffix target_file (".lock".toList)) ≤ 10)

/-- The GET branch of `file_transfer` (file-server.py, lines 162-172),
which wraps `get_request_file_wait`: absent target → "File not found"
(NotFound, immediately); gate acquired → serve the file (Ready); gate
timeout → "File timeout" (TimedOut). -/
def file_transfer_get (fs : FS) (lockFreeAt : List Char → Nat)
    (target_folder file_name : List Char) : GateOutcome :=
  let target_file := pathJoin target_folder (secure_filename file_name)
  if fsExists fs target_file then
    if get_request_file_wait lockFreeAt target_file then .Ready
    else .TimedOut
  else .NotFound

/-- The empty filesystem. -/
def emptyFS : FS := fun _ => none

/-- An upload folder named `uploads` existing as a directory, with no
files. -/
def uploadsOnlyFS : FS :=
  fun q => if q = "uploads".toList then some .dir else none

/-- C3, counterexample.  Uploading content `[1]` under the name
`a.lock` returns Published (`True`), yet the published file `a.lock` is
absent afterwards: because `with_suffix` replaces the extension, the
lock file of target `up/a.lock` is `up/a.lock` itself, and the final
`lock_file.unlink()` deletes the just-published artifact.  Reading back
`N` therefore does not yield `C`. -/
theorem C3_roundtrip_counterexample :
    (post_request_file_wait ("a.lock".toList)
        ((readChunks 4096 [1]).map some) ("up".toList) emptyFS).isOk
      = true ∧
    (post_request_file_wait ("a.lock".toList)
        ((readChunks 4096 [1]).map some) ("up".toList) emptyFS).state
        (pathJoin ("up".toList) (secure_filename ("a.lock".toList)))
      = none := by
  decide

/-- C5, counterexample.  A read error on the very first chunk makes
`post_request_file_wait` raise (the exception propagates to the caller;
the function does not return a Failure value): the result is neither
`True` nor `False`, the `.part` file is left behind, and nothing is
published. -/
theorem C5_stream_error_counterexample :
    (post_request_file_wait ("a.txt".toList) [none] ("up".toList)
        emptyFS).isRaised = true ∧
    (post_request_file_wait ("a.txt".toList) [none] ("up".toList)
        emptyFS).isOk = false ∧
    (post_request_file_wait ("a.txt".toList) [none] ("up".toList)
        emptyFS).isNoFile = false ∧
    (post_request_file_wait ("a.txt".toList) [none] ("up".toList)
        emptyFS).state ("up/a.part".toList) = some (.file []) ∧
    (post_request_file_wait ("a.txt".toList) [none] ("up".toList)
        emptyFS).state ("up/a.txt".toList) = none := by
  decide

/-- C6, counterexample.  The nameHint `..` sanitizes to the empty name,
but `post_request_file_wait` does *not* reject it: `Path(folder, '')`
is the upload folder itself, the body is streamed into `uploads.part`
(a file IS written), the uploads directory is renamed to `uploads.old`,
the temp file is renamed to `uploads`, and the attempt to unlink the
directory `uploads.old` raises. -/
theorem C6_sanitize_counterexample :
    secure_filename ("..".toList) = [] ∧
    (post_request_file_wait ("..".toList) [some [1], some []]
        ("uploads".toList) uploadsOnlyFS).isNoFile = false ∧
    (post_request_file_wait ("..".toList) [some [1], some []]
        ("uploads".toList) uploadsOnlyFS).isRaised = true ∧
    (post_request_file_wait ("..".toList) [some [1], some []]
        ("uploads".toList) uploadsOnlyFS).state ("uploads".toList)
      = some (.file [1]) ∧
    (post_request_file_wait ("..".toList) [some [1], some []]
        ("uploads".toList) uploadsOnlyFS).state ("uploads.old".toList)
      = some .dir := by
  decide

/-- C4.  The download gate of the GET route returns exactly three
distinguishable outcomes: `NotFound` iff the target file does not exist
(checked first, before any waiting), `Ready` iff it exists and the
per-name lock is acquired within the 10-unit bounded wait (the lock is
released by the `with` block immediately), and `TimedOut` iff it exists
and the wait expires; and the gate itself succeeds exactly when the
lock on `target.with_suffix('.lock')` frees up within 10 units. -/
theorem C4_gate_trichotomy (fs : FS) (env : List Char → Nat)
    (folder name : List Char) :
    (file_transfer_get fs env folder name = .NotFound ↔
      fsExists fs (pathJoin folder (secure_filename name)) = false) ∧
    (file_transfer_get fs env folder name = .Ready ↔
      fsExists fs (pathJoin folder (secure_filename name)) = true ∧
        get_request_file_wait env (pathJoin folder (secure_filename name))
          = true) ∧
    (file_transfer_get fs env folder name = .TimedOut ↔
      fsExists fs (pathJoin folder (secure_filename name)) = true ∧
        get_request_file_wait env (pathJoin folder (secure_filename name))
          = false) ∧
    (get_request_file_wait env (pathJoin folder (secure_filename name))
        = true ↔
      env (with_suffix (pathJoin folder (secure_filename name))
        (".lock".toList)) ≤ 10) := by
  refine ⟨?_, ?_, ?_, ?_⟩ <;>
    [skip; skip; skip;
      (unfold get_request_file_wait; exact decide_eq_true_iff)] <;>
  · unfold file_transfer_get
    cases he : fsExists fs (pathJoin folder (secure_filename name)) <;>
      cases hg : get_request_file_wait env
        (pathJoin folder (secure_filename name)) <;>
      simp [he, hg]

/-! ## Helper lemmas on paths, names and streams -/

theorem takeWhile_append_all {α : Type} (p : α → Bool) (l1 l2 : List α)
    (h : ∀ a ∈ l1, p a = true) :
    (l1 ++ l2).takeWhile p = l1 ++ l2.takeWhile p := by
  induction l1 with
  | nil => simp
  | cons a t ih =>
    have ha : p a = true := h a (by simp)
    have ht : ∀ x ∈ t, p x = true := fun x hx => h x (by simp [hx])
    simp [List.takeWhile_cons, ha, ih ht]

theorem dropWhile_append_all {α : Type} (p : α → Bool) (l1 l2 : List α)
    (h : ∀ a ∈ l1, p a = true) :
    (l1 ++ l2).dropWhile p = l2.dropWhile p := by
  induction l1 with
  | nil => simp
  | cons a t ih =>
    have ha : p a = true := h a (by simp)
    have ht : ∀ x ∈ t, p x = true := fun x hx => h x (by simp [hx])
    simp [List.dropWhile_cons, ha, ih ht]

theorem pathName_concat (folder s : List Char) (h : ∀ c ∈ s, ¬(c = '/')) :
    pathName (folder ++ '/' :: s) = s := by
  unfold pathName
  have hrev : (folder ++ '/' :: s).reverse
      = s.reverse ++ '/' :: folder.reverse := by
    simp
  rw [hrev, takeWhile_append_all _ _ _ (by
    intro a ha
    have : ¬(a = '/') := h a (by simpa using ha)
    simpa using this)]
  simp [List.takeWhile_cons]

theorem pathDir_concat (folder s : List Char) (h : ∀ c ∈ s, ¬(c = '/')) :
    pathDir (folder ++ '/' :: s) = folder ++ ['/'] := by
  unfold pathDir
  have hrev : (folder ++ '/' :: s).reverse
      = s.reverse ++ '/' :: folder.reverse := by
    simp
  rw [hrev, dropWhile_append_all _ _ _ (by
    intro a ha
    have : ¬(a = '/') := h a (by simpa using ha)
    simpa using this)]
  simp [List.dropWhile_cons]

/-- Applying `with_suffix` to `folder/name` (with a slash-free name) rewrites the
name only. -/
theorem with_suffix_concat (folder s suf : List Char)
    (h : ∀ c ∈ s, ¬(c = '/')) :
    with_suffix (folder ++ '/' :: s) suf
      = folder ++ '/' :: withSuffixName s suf := by
  unfold with_suffix
  rw [pathName_concat _ _ h, pathDir_concat _ _ h]
  simp

theorem concat_name_inj (folder a b : List Char) :
    folder ++ '/' :: a = folder ++ '/' :: b ↔ a = b := by
  constructor
  · intro h
    have := List.append_cancel_left h
    exact (List.cons.injEq _ _ _ _ ▸ this).2
  · intro h; rw [h]

theorem withSuffixName_suf_inj (s a b : List Char)
    (h : withSuffixName s a = withSuffixName s b) : a = b :=
  List.append_cancel_left h

/-- Every character surviving `secure_filename` is in `[A-Za-z0-9_.-]`. -/
theorem secure_filename_keep (l : List Char) :
    ∀ c ∈ secure_filename l, isKeepChar c = true := by
  intro c hc
  unfold secure_filename at hc
  have h1 := ( List.rdropWhile_prefix isStripChar _).sublist.subset hc
  have h2 := (List.dropWhile_suffix isStripChar).sublist.subset h1
  exact List.of_mem_filter h2

theorem secure_filename_no_slash (l : List Char) :
    ∀ c ∈ secure_filename l, ¬(c = '/') := by
  intro c hc he
  have := secure_filename_keep l c hc
  rw [he] at this
  simp [isKeepChar, Char.isAlphanum, Char.isAlpha, Char.isUpper,
    Char.isLower, Char.isDigit] at this

theorem streamLoop_readChunksAux (c : Nat) (hc : c ≠ 0) :
    ∀ fuel s acc, s.length ≤ fuel →
      streamLoop ((readChunksAux c fuel s).map some) acc = (acc ++ s, true) := by
  intro fuel
  induction fuel with
  | zero =>
    intro s acc hs
    have : s = [] := List.eq_nil_of_length_eq_zero (Nat.le_zero.mp hs)
    subst this
    simp [readChunksAux, streamLoop]
  | succ n ih =>
    intro s acc hs
    cases s with
    | nil => simp [readChunksAux, streamLoop]
    | cons x t =>
      have htake : (x :: t).take c ≠ [] := by
        cases c with
        | zero => exact absurd rfl hc
        | succ m => simp [List.take_succ_cons]
      rw [readChunksAux]
      simp only [List.map_cons, streamLoop, if_neg htake]
      have hlen : ((x :: t).drop c).length ≤ n := by
        rw [List.length_drop]
        simp only [List.length_cons] at hs ⊢
        omega
      rw [ih _ _ hlen, List.append_assoc, List.take_append_drop]
      simp

/-- The chunked copy loop writes the stream's bytes exactly, in order:
reading a stream holding `s` in 4096-byte chunks and concatenating the
written chunks reproduces `s`, and the loop terminates cleanly. -/
theorem streamLoop_readChunks (s : List Nat) :
    streamLoop ((readChunks 4096 s).map some) [] = (s, true) := by
  have := streamLoop_readChunksAux 4096 (by decide) s.length s [] (Nat.le_refl _)
  simpa [readChunks] using this

theorem fsWrite_self (fs : FS) (p : List Char) (c : List Nat) :
    fsWrite fs p c p = some (.file c) := by
  simp [fsWrite]

theorem fsWrite_other (fs : FS) (p c q) (h : ¬(q = p)) :
    fsWrite fs p c q = fs q := by
  simp [fsWrite, h]

theorem fsOpenWrite_of_none (fs : FS) (p : List Char) (h : fs p = none) :
    fsOpenWrite fs p = some (fsWrite fs p []) := by
  simp [fsOpenWrite, h]

theorem fsRename_of_some (fs : FS) (src dst : List Char) (n : FsNode)
    (h : fs src = some n) :
    fsRename fs src dst
      = some (fun q => if q = dst then some n else if q = src then none
          else fs q) := by
  simp [fsRename, h]

theorem fsUnlink_of_file (fs : FS) (p : List Char) (c : List Nat)
    (h : fs p = some (.file c)) :
    fsUnlink fs p = some (fun q => if q = p then none else fs q) := by
  simp [fsUnlink, h]

set_option maxHeartbeats 2000000 in
/-- C3, amended.  Uploading a byte stream with content `C` under a name
whose sanitized form is nonempty and does not itself collide with one
of its own shadow names (`with_suffix` of the name differs from the
name, which holds for any ordinary name not ending in `.part`, `.lock`
or `.old`), starting from a state where the three shadow paths are
absent and the target is not a directory, publishes and reading back
the published name yields exactly `C` byte-for-byte: the whole stream
is written to the temp file in 4096-byte chunks and renamed onto the
target. -/
theorem C3_upload_roundtrip (filename : List Char) (content : List Nat)
    (folder : List Char) (fs : FS)
    (hname : ¬(secure_filename filename = []))
    (hpart : ¬(withSuffixName (secure_filename filename) (".part".toList)
      = secure_filename filename))
    (hlock : ¬(withSuffixName (secure_filename filename) (".lock".toList)
      = secure_filename filename))
    (hold : ¬(withSuffixName (secure_filename filename) (".old".toList)
      = secure_filename filename))
    (hfsp : fs (with_suffix (pathJoin folder (secure_filename filename))
      (".part".toList)) = none)
    (hfsl : fs (with_suffix (pathJoin folder (secure_filename filename))
      (".lock".toList)) = none)
    (hfso : fs (with_suffix (pathJoin folder (secure_filename filename))
      (".old".toList)) = none)
    (htgt : ¬(fs (pathJoin folder (secure_filename filename))
      = some .dir)) :
    (post_request_file_wait filename ((readChunks 4096 content).map some)
      folder fs).isOk = true ∧
    (post_request_file_wait filename ((readChunks 4096 content).map some)
      folder fs).state (pathJoin folder (secure_filename filename))
      = some (.file content) := by
  have hfile : ¬(filename = []) := by
    intro h
    exact hname (by rw [h]; rfl)
  suffices h : ∃ f, post_request_file_wait filename
      ((readChunks 4096 content).map some) folder fs = .ok f ∧
      f (pathJoin folder (secure_filename filename))
        = some (.file content) by
    obtain ⟨f, hf, hft⟩ := h
    rw [hf]
    exact ⟨rfl, hft⟩
  simp only [post_request_file_wait, hfile, if_false, ite_false,
    streamLoop_readChunks]
  set s := secure_filename filename with hs_def
  set t := pathJoin folder s with ht_def
  set tp := with_suffix t (".part".toList) with htp_def
  set tl := with_suffix t (".lock".toList) with htl_def
  set tol := with_suffix t (".old".toList) with htol_def
  have hnoslash : ∀ c ∈ s, ¬(c = '/') := secure_filename_no_slash filename
  have hjoin : t = folder ++ '/' :: s := by
    rw [ht_def, pathJoin, if_neg hname]
  have hws : ∀ suf, with_suffix t suf
      = folder ++ '/' :: withSuffixName s suf := by
    intro suf
    rw [hjoin, with_suffix_concat _ _ _ hnoslash]
  have hinj : ∀ a b : List Char,
      folder ++ '/' :: a = folder ++ '/' :: b → a = b :=
    fun a b h => (concat_name_inj folder a b).mp h
  have hwsne : ∀ suf1 suf2 : List Char, ¬(suf1 = suf2) →
      ¬(with_suffix t suf1 = with_suffix t suf2) := by
    intro suf1 suf2 hne h
    rw [hws, hws] at h
    exact hne (withSuffixName_suf_inj s _ _ (hinj _ _ h))
  have n_t_tp : ¬(t = tp) := by
    intro h
    rw [htp_def, hws, hjoin] at h
    exact hpart (hinj _ _ h).symm
  have n_tp_t : ¬(tp = t) := fun h => n_t_tp h.symm
  have n_t_tl : ¬(t = tl) := by
    intro h
    rw [htl_def, hws, hjoin] at h
    exact hlock (hinj _ _ h).symm
  have n_tl_t : ¬(tl = t) := fun h => n_t_tl h.symm
  have n_t_tol : ¬(t = tol) := by
    intro h
    rw [htol_def, hws, hjoin] at h
    exact hold (hinj _ _ h).symm
  have n_tol_t : ¬(tol = t) := fun h => n_t_tol h.symm
  have n_tp_tl : ¬(tp = tl) := by
    rw [htp_def, htl_def]
    exact hwsne _ _ (by decide)
  have n_tl_tp : ¬(tl = tp) := fun h => n_tp_tl h.symm
  have n_tp_tol : ¬(tp = tol) := by
    rw [htp_def, htol_def]
    exact hwsne _ _ (by decide)
  have n_tol_tp : ¬(tol = tp) := fun h => n_tp_tol h.symm
  have n_tl_tol : ¬(tl = tol) := by
    rw [htl_def, htol_def]
    exact hwsne _ _ (by decide)
  have n_tol_tl : ¬(tol = tl) := fun h => n_tl_tol h.symm
  -- step 1: open the temp file (absent, so opening succeeds)
  simp only [fsOpenWrite_of_none fs tp hfsp, orRaise_some]
  set fsA := fsWrite fs tp [] with hfsA
  set fsB := fsWrite fsA tp content with hfsB
  -- step 2: acquire the lock (creating the lock file)
  have e1 : fsB tl = none := by
    rw [hfsB, fsWrite_other _ _ _ _ n_tl_tp, hfsA,
      fsWrite_other _ _ _ _ n_tl_tp, hfsl]
  simp only [fsOpenWrite_of_none _ _ e1, orRaise_some]
  set fsC := fsWrite fsB tl [] with hfsC
  -- the target is untouched by the shadow writes
  have ect : fsC t = fs t := by
    rw [hfsC, fsWrite_other _ _ _ _ n_t_tl, hfsB,
      fsWrite_other _ _ _ _ n_t_tp, hfsA, fsWrite_other _ _ _ _ n_t_tp]
  have ectp : fsC tp = some (.file content) := by
    rw [hfsC, fsWrite_other _ _ _ _ n_tp_tl, hfsB, fsWrite_self]
  have ectl : fsC tl = some (.file []) := by
    rw [hfsC, fsWrite_self]
  have ectol : fsC tol = none := by
    rw [hfsC, fsWrite_other _ _ _ _ n_tol_tl, hfsB,
      fsWrite_other _ _ _ _ n_tol_tp, hfsA,
      fsWrite_other _ _ _ _ n_tol_tp, hfso]
  rcases hcase : fs t with _ | n
  · -- target initially absent: the `.old` step is skipped
    have hex : fsExists fsC t = false := by
      rw [fsExists, ect, hcase]
      rfl
    rw [hex]
    simp only [Bool.false_eq_true, if_false, ite_false, orRaise_some]
    simp only [fsRename_of_some _ _ t _ ectp, orRaise_some]
    set fsD := (fun q => if q = t then some (FsNode.file content)
      else if q = tp then none else fsC q) with hfsD
    have edt : fsD t = some (.file content) := by
      rw [hfsD]
      simp
    have edtol : fsD tol = none := by
      rw [hfsD]
      simp only [if_neg n_tol_t, if_neg n_tol_tp, ectol]
    have edtl : fsD tl = some (.file []) := by
      rw [hfsD]
      simp only [if_neg n_tl_t, if_neg n_tl_tp, ectl]
    have econd : (fsExists fsD t && fsExists fsD tol) = false := by
      rw [fsExists, fsExists, edt, edtol]
      rfl
    rw [econd]
    simp only [Bool.false_eq_true, if_false, ite_false, orRaise_some]
    have econd2 : fsExists fsD tl = true := by
      rw [fsExists, edtl]
      rfl
    rw [econd2]
    simp only [if_true, ite_true, eq_self_iff_true, orRaise_some]
    simp only [fsUnlink_of_file _ _ _ edtl, orRaise_some]
    refine ⟨_, rfl, ?_⟩
    simp only [if_neg n_t_tl, edt]
  · -- target initially present; it is a regular file by `htgt`
    cases n with
    | dir => exact absurd hcase htgt
    | file c0 =>
      have hex : fsExists fsC t = true := by
        rw [fsExists, ect, hcase]
        rfl
      rw [hex]
      simp only [if_true, ite_true, eq_self_iff_true, orRaise_some]
      have ect2 : fsC t = some (.file c0) := by rw [ect, hcase]
      simp only [fsRename_of_some _ _ tol _ ect2, orRaise_some]
      set fsD := (fun q => if q = tol then some (FsNode.file c0)
        else if q = t then none else fsC q) with hfsD
      have e3tp : fsD tp = some (.file content) := by
        rw [hfsD]
        simp only [if_neg n_tp_tol, if_neg n_tp_t, ectp]
      simp only [fsRename_of_some _ _ t _ e3tp, orRaise_some]
      set fsE := (fun q => if q = t then some (FsNode.file content)
        else if q = tp then none else fsD q) with hfsE
      have eet : fsE t = some (.file content) := by
        rw [hfsE]
        simp
      have eetol : fsE tol = some (.file c0) := by
        rw [hfsE]
        simp only [if_neg n_tol_t, if_neg n_tol_tp, hfsD]
        simp
      have econd : (fsExists fsE t && fsExists fsE tol) = true := by
        rw [fsExists, fsExists, eet, eetol]
        rfl
      rw [econd]
      simp only [if_true, ite_true, eq_self_iff_true, orRaise_some]
      simp only [fsUnlink_of_file _ _ _ eetol, orRaise_some]
      set fsF := (fun q => if q = tol then none else fsE q) with hfsF
      have eftl : fsF tl = some (.file []) := by
        rw [hfsF]
        simp only [if_neg n_tl_tol, hfsE]
        simp only [if_neg n_tl_t, if_neg n_tl_tp, hfsD]
        simp only [if_neg n_tl_tol, if_neg n_tl_t, ectl]
      have econd2 : fsExists fsF tl = true := by
        rw [fsExists, eftl]
        rfl
      rw [econd2]
      simp only [if_true, ite_true, eq_self_iff_true, orRaise_some]
      simp only [fsUnlink_of_file _ _ _ eftl, orRaise_some]
      refine ⟨_, rfl, ?_⟩
      simp only [if_neg n_t_tl, hfsF]
      simp only [if_neg n_t_tol, eet]

theorem C3_upload_roundtrip_witness :
    (¬(secure_filename ("result.txt".toList) = []) ∧
      ¬(withSuffixName (secure_filename ("result.txt".toList))
        (".part".toList) = secure_filename ("result.txt".toList))) ∧
    ((post_request_file_wait ("result.txt".toList)
        ((readChunks 4096 [104, 101, 108, 108, 111]).map some)
        ("uploads".toList) emptyFS).isOk = true ∧
      (post_request_file_wait ("result.txt".toList)
        ((readChunks 4096 [104, 101, 108, 108, 111]).map some)
        ("uploads".toList) emptyFS).state
        (pathJoin ("uploads".toList)
          (secure_filename ("result.txt".toList)))
        = some (.file [104, 101, 108, 108, 111])) :=
  ⟨⟨by decide, by decide⟩,
    C3_upload_roundtrip ("result.txt".toList) [104, 101, 108, 108, 111]
      ("uploads".toList) emptyFS (by decide) (by decide) (by decide)
      (by decide) (by decide) (by decide) (by decide) (by decide)⟩

/-- C5, amended.  A read or write error while streaming the body into
the `.part` temp file makes `post_request_file_wait` abort before any
publish: the error propagates out of the function as a raised exception
(not as a returned Failure value), the `.part` file is left behind
holding the bytes written so far, and the artifact under the final name
is untouched. -/
theorem C5_stream_error_raises (filename : List Char)
    (chunks : List (Option (List Nat))) (folder : List Char) (fs : FS)
    (hname : ¬(secure_filename filename = []))
    (hpart : ¬(withSuffixName (secure_filename filename) (".part".toList)
      = secure_filename filename))
    (hfsp : fs (with_suffix (pathJoin folder (secure_filename filename))
      (".part".toList)) = none)
    (herr : (streamLoop chunks []).2 = false) :
    (post_request_file_wait filename chunks folder fs).isRaised = true ∧
    (post_request_file_wait filename chunks folder fs).state
      (with_suffix (pathJoin folder (secure_filename filename))
        (".part".toList))
      = some (.file (streamLoop chunks []).1) ∧
    (post_request_file_wait filename chunks folder fs).state
      (pathJoin folder (secure_filename filename))
      = fs (pathJoin folder (secure_filename filename)) := by
  have hfile : ¬(filename = []) := by
    intro h
    exact hname (by rw [h]; rfl)
  simp only [post_request_file_wait, hfile, if_false, ite_false]
  set s := secure_filename filename with hs_def
  set t := pathJoin folder s with ht_def
  set tp := with_suffix t (".part".toList) with htp_def
  have hnoslash : ∀ c ∈ s, ¬(c = '/') := secure_filename_no_slash filename
  have hjoin : t = folder ++ '/' :: s := by
    rw [ht_def, pathJoin, if_neg hname]
  have n_t_tp : ¬(t = tp) := by
    intro h
    rw [htp_def, hjoin, with_suffix_concat _ _ _ hnoslash] at h
    exact hpart ((concat_name_inj folder _ _).mp h).symm
  simp only [fsOpenWrite_of_none fs tp hfsp, orRaise_some]
  rw [herr]
  simp only [Bool.false_eq_true, if_false, ite_false]
  refine ⟨rfl, ?_, ?_⟩
  · simp only [UploadResult.state, fsWrite_self]
  · simp only [UploadResult.state, fsWrite_other _ _ _ _ n_t_tp]

theorem C5_stream_error_witness :
    ((¬(secure_filename ("a.txt".toList) = [])) ∧
      (streamLoop [none] []).2 = false) ∧
    ((post_request_file_wait ("a.txt".toList) [none] ("up".toList)
        emptyFS).isRaised = true ∧
      (post_request_file_wait ("a.txt".toList) [none] ("up".toList)
        emptyFS).state
        (with_suffix (pathJoin ("up".toList)
          (secure_filename ("a.txt".toList))) (".part".toList))
        = some (.file (streamLoop [none] []).1) ∧
      (post_request_file_wait ("a.txt".toList) [none] ("up".toList)
        emptyFS).state
        (pathJoin ("up".toList) (secure_filename ("a.txt".toList)))
        = emptyFS (pathJoin ("up".toList)
          (secure_filename ("a.txt".toList)))) :=
  ⟨⟨by decide, by decide⟩,
    C5_stream_error_raises ("a.txt".toList) [none] ("up".toList) emptyFS
      (by decide) (by decide) (by decide) (by decide)⟩

theorem dropWhile_head_not {α : Type} (p : α → Bool) (l : List α) :
    ((l.dropWhile p).head?.all (fun a => !p a)) = true := by
  induction l with
  | nil => rfl
  | cons a t ih =>
    by_cases h : p a = true
    · simpa [List.dropWhile_cons, h] using ih
    · have h' : p a = false := by
        cases hpa : p a
        · rfl
        · exact absurd hpa h
      simp [List.dropWhile_cons, h']

theorem isPrefix_head_all {α : Type} (P : α → Bool) (l1 l2 : List α)
    (hpre : l1 <+: l2) (h : (l2.head?.all P) = true) :
    (l1.head?.all P) = true := by
  cases l1 with
  | nil => rfl
  | cons a t =>
    obtain ⟨r, hr⟩ := hpre
    rw [← hr] at h
    simpa using h

/-- The sanitized name can never be hidden: `strip("._")` removes every
leading dot. -/
theorem secure_filename_head_not_dot (hint : List Char) :
    ((secure_filename hint).head?.all (fun c => !(c == '.'))) = true := by
  unfold secure_filename
  apply isPrefix_head_all _ _ _ ( List.rdropWhile_prefix _ _)
  have hd := dropWhile_head_not isStripChar
    ((List.intercalate ['_'] (splitWs ((hint.filter
      (fun c => c.toNat < 128)).map
        (fun c => if c == '/' then ' ' else c)))).filter isKeepChar)
  cases hh : (((List.intercalate ['_'] (splitWs ((hint.filter
      (fun c => c.toNat < 128)).map
        (fun c => if c == '/' then ' ' else c)))).filter
          isKeepChar).dropWhile isStripChar).head? with
  | none => simp [hh]
  | some c =>
    rw [hh] at hd
    simp only [Option.all_some] at hd ⊢
    simp only [isStripChar, Bool.not_eq_eq_eq_not, Bool.not_true,
      Bool.or_eq_false_iff] at hd
    simp [hd.1]

/-- C6, amended.  An empty (absent) nameHint is rejected with `False`
and no file is written; the sanitized name is never hidden (leading
dots are stripped); but an *empty sanitized result* is not rejected
(see the counterexample: the upload proceeds against the folder
itself). -/
theorem C6_reject_empty_hint (chunks : List (Option (List Nat)))
    (folder : List Char) (fs : FS) (hint : List Char) :
    post_request_file_wait [] chunks folder fs = .noFile fs ∧
    ((secure_filename hint).head?.all (fun c => !(c == '.'))) = true :=
  ⟨rfl, secure_filename_head_not_dot hint⟩

/-! ## Directory trees: DirectoryCatalog, ArchiveBuilder, RetentionSweeper
(file_utils.py, lines 62-195)

A directory's contents are a list of entries.  `symlink` stands for a
broken symbolic link (`is_file()`/`is_dir()` are `False`, `stat()`
raises, `os.path.islink` is `True`); `special` for an entry that stats
fine but is neither a regular file nor a directory (fifo, socket);
`vanished` for an entry removed between enumeration and `stat()`, whose
`stat()` raises.  The recursive walks are written as mutual
entry/list pairs so the recursion is structural. -/

inductive Entry where
  | file (name : List Char) (content : List Nat) (mtime : Nat) : Entry
  | dir (name : List Char) (children : List Entry) (mtime : Nat) : Entry
  | symlink (name : List Char) : Entry
  | special (name : List Char) (mtime : Nat) : Entry
  | vanished (name : List Char) : Entry

def entryName : Entry → List Char
  | .file n _ _ => n
  | .dir n _ _ => n
  | .symlink n => n
  | .special n _ => n
  | .vanished n => n

/-- Model of `item.is_dir()` (follows links; a broken link is not a dir). -/
def entryIsDir : Entry → Bool
  | .dir _ _ _ => true
  | _ => false

mutual
/-- One iteration of the `for entry in path.iterdir()` loop of
`get_dir_size`: a regular file contributes `st_size/scale`, a
subdirectory its recursive `get_dir_size`, anything else nothing. -/
def entry_dir_size : Entry → Rat
  | .file _ c _ => (c.length : Rat) / ((1024 : Rat) ^ 2)
  | .dir _ ch _ => get_dir_size ch
  | .symlink _ => 0
  | .special _ _ => 0
  | .vanished _ => 0

/-- Model of `get_dir_size(path, scale=1024**2)` (file_utils.py, lines 62-69)
over the directory's children.  Division is exact in this model;
CPython uses binary floating point.  The recursive call keeps the
default scale, as in the source. -/
def get_dir_size : List Entry → Rat
  | [] => 0
  | e :: rest => entry_dir_size e + get_dir_size rest
end

mutual
/-- Byte contribution of one entry to the spec's recursive sum. -/
def entry_byte_sum : Entry → Nat
  | .file _ c _ => c.length
  | .dir _ ch _ => spec_recursive_byte_sum ch
  | .symlink _ => 0
  | .special _ _ => 0
  | .vanished _ => 0

/-- The spec's "recursive sum of contained file sizes", in bytes
(comparison definition, stated from the spec's words). -/
def spec_recursive_byte_sum : List Entry → Nat
  | [] => 0
  | e :: rest => entry_byte_sum e + spec_recursive_byte_sum rest
end

/-- Python `int()` applied to an exact rational: truncation toward
zero. -/
def pyInt (q : Rat) : Int :=
  if 0 ≤ q then q.floor else -((-q).floor)

structure file_info where
  name : List Char
  path : List Char
  file_size : Int
  mtime : Nat
  file_type : List Char
deriving DecidableEq

deriving instance DecidableEq for Except

/-- Model of `f_stat(root, path, forced_type)` (file_utils.py, lines 99-116):
`abs_path.stat().st_mtime` first (raising for vanished entries and
broken links), then the directory branch (recursive size in mebibytes,
truncated by `int()`), the file branch (size in bytes, type
`forced_type or path.suffix`), or `None` for anything else.
`.error ()` stands for the raised `OSError`. -/
def f_stat (e : Entry) (path : List Char)
    (forced_type : Option (List Char)) : Except Unit (Option file_info) :=
  match e with
  | .vanished _ => .error ()
  | .symlink _ => .error ()
  | .dir n ch m =>
    .ok (some { name := n, path := path,
                file_size := pyInt (get_dir_size ch), mtime := m,
                file_type := "directory".toList })
  | .file n c m =>
    .ok (some { name := n, path := path,
                file_size := (c.length : Int), mtime := m,
                file_type :=
                  match forced_type with
                  | some ft =>
                    if ft = [] then path_suffix (pathName path) else ft
                  | none => path_suffix (pathName path) })
  | .special _ _ => .ok none

structure DirContent where
  dirs : List file_info
  files : List file_info
deriving DecidableEq

/-- The `for item in top_level.iterdir()` loop of `list_directory`
(file_utils.py, lines 77-86): each entry is stat'ed and classified; an
exception from `f_stat` escapes the loop and is swallowed by the
surrounding `try`, so the content collected so far is returned. -/
def listLoop (forced : Option (List Char)) :
    List Entry → DirContent → DirContent
  | [], acc => acc
  | e :: rest, acc =>
    match f_stat e (entryName e) forced with
    | .error _ => acc
    | .ok none => listLoop forced rest acc
    | .ok (some fi) =>
      if entryIsDir e then
        listLoop forced rest { acc with dirs := acc.dirs ++ [fi] }
      else
        listLoop forced rest { acc with files := acc.files ++ [fi] }

/-- Model of `list_directory(root, path, forced_type)` restricted to the loop
over the already-resolved directory's children (the `top_level.is_dir()`
fallback to `root` is about choosing which directory to list and is not
modelled). -/
def list_directory (items : List Entry)
    (forced : Option (List Char)) : DirContent :=
  listLoop forced items ⟨[], []⟩

/-! ## ArchiveBuilder: `zip_directory` / `generate_zip`
(file_utils.py, lines 133-151) -/

mutual
/-- One `rglob('*')` visit of a single entry, filtered by `is_file()`. -/
def rglob_entry (pre : List (List Char)) :
    Entry → List (List (List Char) × List Nat)
  | .file n c _ => [(pre ++ [n], c)]
  | .dir n ch _ => rglob_files (pre ++ [n]) ch
  | .symlink _ => []
  | .special _ _ => []
  | .vanished _ => []

/-- Model of `[f for f in case_path.rglob('*') if f.is_file()]`: all regular
files in the subtree, with their segment paths (rooted at the given
prefix).  Broken links, specials and vanished entries are not regular
files. -/
def rglob_files (pre : List (List Char)) :
    List Entry → List (List (List Char) × List Nat)
  | [] => []
  | e :: rest => rglob_entry pre e ++ rglob_files pre rest
end

/-- Zip archives on disk: path of the zip file ↦ its entries
(archive-internal segment path, bytes). -/
abbrev ZipFS := List Char → Option (List (List (List Char) × List Nat))

/-- Model of `generate_zip(files, zip_file, root, compress)` (file_utils.py,
lines 141-151): `ZipFile(zip_file, "w")` creates the archive and each
existing file is stored under `f.relative_to(root)` (here: the path
with `root`'s leading segments dropped).  The `try/except` that turns
an I/O error into `False` is not exercised by this model. -/
def generate_zip (files : List (List (List Char) × List Nat))
    (zip_file : List Char) (root : List (List Char)) (zfs : ZipFS) :
    Bool × ZipFS :=
  (true, fun q => if q = zip_file
    then some (files.map (fun fc => (fc.1.drop root.length, fc.2)))
    else zfs q)

/-- Model of `zip_directory(case_path, target_file)` (file_utils.py, lines
133-138): collect the regular files under the case directory; only `if
files and generate_zip(...)` builds the archive, so an empty file set
short-circuits to `None` with `generate_zip` never called; archive
paths are relative to `case_path.parent`, so they start with the case
directory's name. -/
def zip_directory (case_name : List Char) (children : List Entry)
    (target_file : List Char) (zfs : ZipFS) :
    Option (List Char) × ZipFS :=
  let files := rglob_files [case_name] children
  if files = [] then (none, zfs)
  else
    let res := generate_zip files target_file [] zfs
    if res.1 then (some target_file, res.2) else (none, res.2)

/-! ## RetentionSweeper: `dir_age` / `remove_old_folders`
(file_utils.py, lines 154-184) -/

/-- Model of `safe_getmtime(fpath)` (file_utils.py, lines 154-157): `None` for
any symbolic link, otherwise the modification time.  (`os.walk` never
hands it a vanished entry.) -/
def safe_getmtime : Entry → Option Nat
  | .file _ _ m => some m
  | .dir _ _ m => some m
  | .special _ m => some m
  | .symlink _ => none
  | .vanished _ => none

mutual
/-- What one walked entry contributes to the mtime collection: a
directory is descended into; a non-directory lands in a `files` list
and is kept when `safe_getmtime` is truthy (not `None`, not `0`). -/
def entryWalkMtimes : Entry → List Nat
  | .dir _ ch _ => walkFileMtimes ch
  | e =>
    match safe_getmtime e with
    | some m => if m = 0 then [] else [m]
    | none => []

/-- The modification times `dir_age` collects over `os.walk`. -/
def walkFileMtimes : List Entry → List Nat
  | [] => []
  | e :: rest => entryWalkMtimes e ++ walkFileMtimes rest
end

/-- Model of `dir_age(path, now)` (file_utils.py, lines 160-168):
`youngest_file_mtime` starts at `0` and takes the max over all walked
file mtimes that pass `safe_getmtime` truthiness; the age is `now`
minus that. -/
def dir_age (children : List Entry) (now : Int) : Int :=
  now - (walkFileMtimes children).foldr
    (fun (m : Nat) (acc : Int) => max (m : Int) acc) 0

/-- The per-case deletion decision of `remove_old_folders(path, hours)`
(file_utils.py, lines 171-180): `shutil.rmtree` is invoked exactly when
`dir_age(dir, now) > hours * 3600`. -/
def remove_old_folders_deletes (children : List Entry) (now : Int)
    (hours : Nat) : Bool :=
  decide (dir_age children now > (hours * 3600 : Int))

mutual
/-- A single entry is a regular-file-free subtree: a directory all of
whose contents are, or a broken symbolic link. -/
def entryOnlyDirLink : Entry → Bool
  | .dir _ ch _ => onlyDirsAndLinks ch
  | .symlink _ => true
  | .file _ _ _ => false
  | .special _ _ => false
  | .vanished _ => false

/-- Recursively: every entry is a (possibly empty) directory or a
broken symbolic link — a case directory with no regular files at
all. -/
def onlyDirsAndLinks : List Entry → Bool
  | [] => true
  | e :: rest => entryOnlyDirLink e && onlyDirsAndLinks rest
end

/-- C7.  A directory containing zero regular files (recursively) makes
`zip_directory` return Failure (`None`) without ever invoking
`generate_zip`: no zip file is created or left on disk, and a
zero-entry archive is never produced. -/
theorem C7_empty_dir_no_zip (case_name target : List Char)
    (children : List Entry) (zfs : ZipFS)
    (h : rglob_files [case_name] children = []) :
    zip_directory case_name children target zfs = (none, zfs) := by
  simp [zip_directory, h]

theorem C7_empty_dir_no_zip_witness :
    rglob_files ["case1".toList]
      [Entry.dir ("sub".toList) [] 5, Entry.symlink ("lnk".toList)]
      = [] ∧
    zip_directory ("case1".toList)
      [Entry.dir ("sub".toList) [] 5, Entry.symlink ("lnk".toList)]
      ("case1.zip".toList) (fun _ => none)
      = (none, fun _ => none) :=
  ⟨by decide, C7_empty_dir_no_zip ("case1".toList) ("case1.zip".toList)
    [Entry.dir ("sub".toList) [] 5, Entry.symlink ("lnk".toList)]
    (fun _ => none) (by decide)⟩

/-- Lemma: `get_dir_size` returns the recursive byte sum *divided by 1024²*
(it reports mebibytes, not bytes). -/
theorem get_dir_size_eq : ∀ ch : List Entry,
    get_dir_size ch
      = (spec_recursive_byte_sum ch : Rat) / ((1024 : Rat) ^ 2) := by
  refine get_dir_size.induct
    (fun e => entry_dir_size e
      = (entry_byte_sum e : Rat) / ((1024 : Rat) ^ 2))
    (fun l => get_dir_size l
      = (spec_recursive_byte_sum l : Rat) / ((1024 : Rat) ^ 2))
    ?_ ?_ ?_ ?_ ?_ ?_ ?_
  · intro n c m
    simp [entry_dir_size, entry_byte_sum]
  · intro n ch m ih
    simpa [entry_dir_size, entry_byte_sum] using ih
  · intro n
    simp [entry_dir_size, entry_byte_sum]
  · intro n m
    simp [entry_dir_size, entry_byte_sum]
  · intro n
    simp [entry_dir_size, entry_byte_sum]
  · simp [get_dir_size, spec_recursive_byte_sum]
  · intro e r ih1 ih2
    simp only [get_dir_size, spec_recursive_byte_sum, ih1, ih2]
    push_cast
    ring

/-- C8, counterexample.  A directory holding one 5-byte file is
reported with `file_size = 0`, not `5`: `get_dir_size` divides by
`1024**2` (the `scale` default), and `f_stat` truncates with `int()`,
so directory sizes are mebibytes while the claim asserts bytes. -/
theorem C8_dir_size_counterexample :
    f_stat (Entry.dir ("d".toList)
        [Entry.file ("a".toList) [0, 0, 0, 0, 0] 3] 7) ("d".toList) none
      = .ok (some { name := "d".toList, path := "d".toList,
                    file_size := 0, mtime := 7,
                    file_type := "directory".toList }) ∧
    spec_recursive_byte_sum [Entry.file ("a".toList) [0, 0, 0, 0, 0] 3]
      = 5 ∧
    (0 : Int) ≠ 5 := by
  have h5 : spec_recursive_byte_sum
      [Entry.file ("a".toList) [0, 0, 0, 0, 0] 3] = 5 := by decide
  have hfl : pyInt (((5 : Nat) : Rat) / ((1024 : Rat) ^ 2)) = 0 := by
    rw [pyInt, if_pos (by positivity)]
    have h2 : ⌊((5 : Nat) : Rat) / ((1024 : Rat) ^ 2)⌋ = 0 := by
      rw [Int.floor_eq_zero_iff]
      simp only [Set.mem_Ico]
      constructor
      · positivity
      · norm_num
    exact h2
  refine ⟨?_, h5, by decide⟩
  simp only [f_stat, get_dir_size_eq, h5, hfl]

/-- C8, amended.  For a directory entry, the FileRecord's byteSize is
the recursive byte sum of its regular files divided by 1024² and
truncated by `int()` — mebibytes, not bytes (a plain file's byteSize is
its byte size). -/
theorem C8_dir_size_megabytes (n : List Char) (ch : List Entry)
    (m : Nat) (p : List Char) (ft : Option (List Char)) :
    f_stat (Entry.dir n ch m) p ft
      = .ok (some { name := n, path := p,
                    file_size := pyInt ((spec_recursive_byte_sum ch : Rat)
                      / ((1024 : Rat) ^ 2)),
                    mtime := m,
                    file_type := "directory".toList }) := by
  simp only [f_stat, get_dir_size_eq]

theorem listLoop_error_truncates (forced : Option (List Char))
    (e0 : Entry) (he : f_stat e0 (entryName e0) forced = .error ()) :
    ∀ xs ys acc,
      listLoop forced (xs ++ e0 :: ys) acc = listLoop forced xs acc := by
  intro xs
  induction xs with
  | nil =>
    intro ys acc
    simp [listLoop, he]
  | cons e rest ih =>
    intro ys acc
    simp only [List.cons_append, listLoop]
    cases hfs : f_stat e (entryName e) forced with
    | error u => rfl
    | ok o =>
      cases o with
      | none => exact ih _ _
      | some fi =>
        cases hd : entryIsDir e
        · simp only [Bool.false_eq_true, if_false, ite_false]
          exact ih _ _
        · simp only [if_true, ite_true]
          exact ih _ _

theorem listLoop_none_skips (forced : Option (List Char))
    (e0 : Entry) (he : f_stat e0 (entryName e0) forced = .ok none) :
    ∀ xs ys acc,
      listLoop forced (xs ++ e0 :: ys) acc
        = listLoop forced (xs ++ ys) acc := by
  intro xs
  induction xs with
  | nil =>
    intro ys acc
    simp [listLoop, he]
  | cons e rest ih =>
    intro ys acc
    simp only [List.cons_append, listLoop]
    cases hfs : f_stat e (entryName e) forced with
    | error u => rfl
    | ok o =>
      cases o with
      | none => exact ih _ _
      | some fi =>
        cases hd : entryIsDir e
        · simp only [Bool.false_eq_true, if_false, ite_false]
          exact ih _ _
        · simp only [if_true, ite_true]
          exact ih _ _

/-- C9, counterexample.  With children `a`, `b` (removed
mid-enumeration, so its stat raises) and `c`, the listing returns only
`a`: the exception breaks the whole `for` loop, so `c` is never
enumerated — a single failing entry truncates the result. -/
theorem C9_listing_counterexample :
    ((list_directory [Entry.file ("a".toList) [] 1,
        Entry.vanished ("b".toList),
        Entry.file ("c".toList) [] 2] none).files.map
      (fun fi => fi.name)) = ["a".toList] ∧
    ¬(("c".toList) ∈ ((list_directory [Entry.file ("a".toList) [] 1,
        Entry.vanished ("b".toList),
        Entry.file ("c".toList) [] 2] none).files.map
      (fun fi => fi.name))) := by
  decide

/-- C9, amended.  An entry that stats as neither file nor directory is
skipped with the remaining children still enumerated; but an entry
whose `stat()` raises (removed mid-enumeration, or a broken symlink)
silently *terminates* the enumeration: the entries collected so far are
returned and every later child is omitted (the call itself never
fails). -/
theorem C9_listing_skip_or_truncate (forced : Option (List Char))
    (xs ys : List Entry) (acc : DirContent) (n : List Char) (m : Nat) :
    listLoop forced (xs ++ Entry.vanished n :: ys) acc
      = listLoop forced xs acc ∧
    listLoop forced (xs ++ Entry.symlink n :: ys) acc
      = listLoop forced xs acc ∧
    listLoop forced (xs ++ Entry.special n m :: ys) acc
      = listLoop forced (xs ++ ys) acc :=
  ⟨listLoop_error_truncates forced (Entry.vanished n) rfl xs ys acc,
    listLoop_error_truncates forced (Entry.symlink n) rfl xs ys acc,
    listLoop_none_skips forced (Entry.special n m) rfl xs ys acc⟩

theorem walkFileMtimes_of_onlyDirsAndLinks : ∀ ch : List Entry,
    onlyDirsAndLinks ch = true → walkFileMtimes ch = [] := by
  refine onlyDirsAndLinks.induct
    (fun e => entryOnlyDirLink e = true → entryWalkMtimes e = [])
    (fun l => onlyDirsAndLinks l = true → walkFileMtimes l = [])
    ?_ ?_ ?_ ?_ ?_ ?_ ?_
  · intro n ch m ih h
    rw [entryOnlyDirLink] at h
    simp [entryWalkMtimes, ih h]
  · intro n h
    simp [entryWalkMtimes, safe_getmtime]
  · intro n c m h
    exact absurd h (by simp [entryOnlyDirLink])
  · intro n m h
    exact absurd h (by simp [entryOnlyDirLink])
  · intro n h
    exact absurd h (by simp [entryOnlyDirLink])
  · intro h
    rfl
  · intro e r ih1 ih2 h
    rw [onlyDirsAndLinks, Bool.and_eq_true] at h
    simp [walkFileMtimes, ih1 h.1, ih2 h.2]

/-- C10.  A case directory containing no regular files at all (only
empty subdirectories or broken symbolic links): `youngest_file_mtime`
stays `0`, so the computed age is `now - 0 = now`, and
`remove_old_folders` deletes the directory on any sweep whose
`hours * 3600` threshold is below the current epoch time, regardless of
the directory's own modification times. -/
theorem C10_filefree_case_age (children : List Entry) (now : Int)
    (hours : Nat) (h : onlyDirsAndLinks children = true) :
    dir_age children now = now ∧
    ((hours * 3600 : Int) < now →
      remove_old_folders_deletes children now hours = true) := by
  have hw := walkFileMtimes_of_onlyDirsAndLinks children h
  constructor
  · rw [dir_age, hw]
    simp
  · intro hlt
    rw [remove_old_folders_deletes, dir_age, hw]
    simp only [List.foldr_nil, decide_eq_true_eq]
    omega

theorem C10_filefree_case_age_witness :
    (onlyDirsAndLinks [Entry.dir ("sub".toList) [] 5,
        Entry.symlink ("lnk".toList)] = true ∧
      ((48 : Nat) * 3600 : Int) < 1000000) ∧
    (dir_age [Entry.dir ("sub".toList) [] 5,
        Entry.symlink ("lnk".toList)] 1000000 = 1000000 ∧
      (((48 : Nat) * 3600 : Int) < 1000000 →
        remove_old_folders_deletes [Entry.dir ("sub".toList) [] 5,
          Entry.symlink ("lnk".toList)] 1000000 48 = true)) :=
  ⟨⟨by decide, by decide⟩,
    C10_filefree_case_age [Entry.dir ("sub".toList) [] 5,
      Entry.symlink ("lnk".toList)] 1000000 48 (by decide)⟩
